import Mathlib

/-!
Shallow embedding of the KNX state-monitor firmware core
(src/src/main.cpp of OXRS-BJ-StateMonitor-KNX-FW): the bounded circular
read-request queue, the single-in-flight wait monitor with timeout requeue,
the telegram interest filter and inbound state handler, the staleness
scanner, and the input-event to telegram translation table.

Machine integers are modelled as Nat; the 32-bit millisecond counter
arithmetic is made explicit with reduction modulo 2 to the 32.  The global
mutable variables of the firmware are collected into one state record and
every firmware function becomes a state transformer.
-/

/-- MCP_COUNT from main.cpp: up to 8 MCP23017 expanders on the bus. -/
def MCP_COUNT : Nat := 8

/-- MCP_PIN_COUNT from main.cpp: 16 pins per expander. -/
def MCP_PIN_COUNT : Nat := 16

/-- MAX_INPUT_COUNT from main.cpp: MCP_COUNT * MCP_PIN_COUNT = 128 slots. -/
def MAX_INPUT_COUNT : Nat := MCP_COUNT * MCP_PIN_COUNT

/-- KNX_READ_QUEUE_SIZE from main.cpp: the read queue has one array slot
per input, so 128 entries. -/
def KNX_READ_QUEUE_SIZE : Nat := MAX_INPUT_COUNT

/-- KNX_READ_TIMEOUT_MS from main.cpp: 5 seconds. -/
def KNX_READ_TIMEOUT_MS : Nat := 5000

/-- KNX_STATE_EXPIRY_MS from main.cpp: 65 minutes. -/
def KNX_STATE_EXPIRY_MS : Nat := 3900000

/-- The modulus of the 32-bit unsigned millisecond counter. -/
def U32 : Nat := 4294967296

/-- Unsigned 32-bit subtraction a - b as performed by the C expression
on uint32_t values: the difference modulo 2 to the 32. -/
def sub32 (a b : Nat) : Nat := (a % U32 + (U32 - b % U32)) % U32

/-- KnxConfig struct from main.cpp: per-input command address, state
address, last known boolean state and last state-update time. -/
structure KnxConfig where
  commandAddress : Nat
  stateAddress : Nat
  state : Bool
  lastStateUpdateMs : Nat
deriving DecidableEq

/-- The firmware global variables relevant to the KNX core, collected in
one record: g_knxConfig, g_knxReadQueue with its head and tail indices,
and the read-wait registers g_knxReadWaitAddress / g_knxReadWaitSince. -/
structure KnxState where
  knxConfig : Nat → KnxConfig
  readQueue : Nat → Nat
  headIdx : Nat
  tailIdx : Nat
  waitAddress : Nat
  waitSince : Nat

/-- KNX telegram command kinds distinguished by the firmware
(KNX_COMMAND_WRITE, KNX_COMMAND_ANSWER, KNX_COMMAND_READ, and anything
else the KnxTpUart library can deliver). -/
inductive KnxCommand where
  | write
  | answer
  | read
  | other
deriving DecidableEq

/-- An inbound telegram as observed through the KnxTpUart accessors used
by the firmware: isTargetGroup, getTargetGroupAddress, getCommand,
getPayloadLength and getBool. -/
structure KnxTelegram where
  isTargetGroup : Bool
  targetGroupAddress : Nat
  command : KnxCommand
  payloadLength : Nat
  getBool : Bool
deriving DecidableEq

/-- An outgoing telegram produced by the firmware: groupWriteBool or
groupWrite4BitDim with its address and payload. -/
inductive KnxOutgoing where
  | writeBool (address : Nat) (value : Bool)
  | write4BitDim (address : Nat) (up : Bool) (rate : Nat)
deriving DecidableEq

/-- Modelled from the spec: the input-type constants BUTTON, CONTACT,
PRESS, ROTARY, SECURITY, SWITCH, TOGGLE come from the external
OXRS_Input library, which is not under src/.  Only their pairwise
distinctness matters to the firmware logic (main.cpp switches on them
with distinct case labels); representative distinct values are used. -/
def BUTTON : Nat := 0

/-- Input-type constant, see BUTTON. -/
def CONTACT : Nat := 1

/-- Input-type constant, see BUTTON. -/
def PRESS : Nat := 2

/-- Input-type constant, see BUTTON. -/
def ROTARY : Nat := 3

/-- Input-type constant, see BUTTON. -/
def SECURITY : Nat := 4

/-- Input-type constant, see BUTTON. -/
def SWITCH : Nat := 5

/-- Input-type constant, see BUTTON. -/
def TOGGLE : Nat := 6

/-- Modelled from the spec: the event-code constants come from the
external OXRS_Input library, not present under src/.  The firmware's own
getEventType uses LOW_EVENT, HIGH_EVENT, HOLD_EVENT, RELEASE_EVENT,
TAMPER_EVENT, SHORT_EVENT, FAULT_EVENT and the press counts 1..5 as
distinct case labels of one C switch, which forces them to be pairwise
distinct; representative values respecting that distinctness are used. -/
def LOW_EVENT : Nat := 0

/-- Event-code constant, see LOW_EVENT. -/
def HIGH_EVENT : Nat := 64

/-- Event-code constant, see LOW_EVENT. -/
def HOLD_EVENT : Nat := 65

/-- Event-code constant, see LOW_EVENT. -/
def RELEASE_EVENT : Nat := 66

/-- Event-code constant, see LOW_EVENT. -/
def TAMPER_EVENT : Nat := 67

/-- Event-code constant, see LOW_EVENT. -/
def SHORT_EVENT : Nat := 68

/-- Event-code constant, see LOW_EVENT. -/
def FAULT_EVENT : Nat := 69

/-- isQueueEmpty from main.cpp: the queue is empty iff head equals tail. -/
def isQueueEmpty (s : KnxState) : Bool :=
  s.headIdx == s.tailIdx

/-- One C scan loop, for i from lo while i is below hi, returning true as
soon as arr at i equals the address. -/
def scanRange (arr : Nat → Nat) (lo hi address : Nat) : Bool :=
  (List.range' lo (hi - lo)).any fun i => arr i == address

/-- isQueued from main.cpp: membership test on the occupied arc of the
circular buffer, scanning tail to head directly when the buffer has not
wrapped, and tail to capacity plus start to head when it has. -/
def isQueued (s : KnxState) (address : Nat) : Bool :=
  if isQueueEmpty s then false
  else if s.tailIdx < s.headIdx then
    scanRange s.readQueue s.tailIdx s.headIdx address
  else
    scanRange s.readQueue s.tailIdx KNX_READ_QUEUE_SIZE address ||
    scanRange s.readQueue 0 s.headIdx address

/-- flushQueue from main.cpp: reset head, tail and the wait registers. -/
def flushQueue (s : KnxState) : KnxState :=
  { s with headIdx := 0, tailIdx := 0, waitAddress := 0, waitSince := 0 }

/-- A single array cell write, g_knxReadQueue at index i becomes v. -/
def writeIdx (f : Nat → Nat) (i v : Nat) : Nat → Nat :=
  fun j => if j = i then v else f j

/-- pushQueue from main.cpp: ignore the zero address and addresses already
queued, otherwise store at the head index and advance the head, wrapping
to 0 at the capacity. -/
def pushQueue (s : KnxState) (address : Nat) : KnxState :=
  if address = 0 then s
  else if isQueued s address then s
  else
    { s with
      readQueue := writeIdx s.readQueue s.headIdx address,
      headIdx :=
        if s.headIdx + 1 = KNX_READ_QUEUE_SIZE then 0 else s.headIdx + 1 }

/-- popQueue from main.cpp: return 0 when empty, otherwise return the tail
element and advance the tail, wrapping to 0 at the capacity. -/
def popQueue (s : KnxState) : KnxState × Nat :=
  if isQueueEmpty s then (s, 0)
  else
    ( { s with
        tailIdx :=
          if s.tailIdx + 1 = KNX_READ_QUEUE_SIZE then 0 else s.tailIdx + 1 },
      s.readQueue s.tailIdx )

/-- Verification abstraction: the occupied arc of a circular buffer with
storage arr, tail cursor T and head cursor H, as a list in pop order. -/
def queueArc (arr : Nat → Nat) (T H : Nat) : List Nat :=
  if T ≤ H then
    (List.range' T (H - T)).map arr
  else
    (List.range' T (KNX_READ_QUEUE_SIZE - T)).map arr
      ++ (List.range' 0 H).map arr

/-- Verification abstraction: the list of addresses on the occupied arc of
the circular buffer, from the tail cursor to the head cursor, in pop
order.  This is not a firmware function; it is the reference model the
queue code is proved against. -/
def queueList (s : KnxState) : List Nat :=
  queueArc s.readQueue s.tailIdx s.headIdx

/-- Well-formedness of the cursors: both fit the uint8 circular range the
firmware maintains, always below KNX_READ_QUEUE_SIZE. -/
def WF (s : KnxState) : Prop :=
  s.headIdx < KNX_READ_QUEUE_SIZE ∧ s.tailIdx < KNX_READ_QUEUE_SIZE

instance (s : KnxState) : Decidable (WF s) := by
  unfold WF; infer_instance

/-- The queue invariant every firmware operation maintains: cursors in
range, no duplicate address on the occupied arc, and the none address 0
never on the arc. -/
def QInv (s : KnxState) : Prop :=
  WF s ∧ (queueList s).Nodup ∧ 0 ∉ queueList s

/-- knxTelegramCheck from main.cpp: the interest filter accepts a telegram
iff it targets a group and some slot's stateAddress equals the target
group address. -/
def knxTelegramCheck (s : KnxState) (telegram : KnxTelegram) : Bool :=
  if !telegram.isTargetGroup then false
  else
    (List.range MAX_INPUT_COUNT).any fun i =>
      (s.knxConfig i).stateAddress == telegram.targetGroupAddress

/-- A single g_knxConfig cell write, entry i becomes v. -/
def writeCfgAt (c : Nat → KnxConfig) (i : Nat) (v : KnxConfig) :
    Nat → KnxConfig :=
  fun j => if j = i then v else c j

/-- One iteration of the update loop in knxTelegram from main.cpp: if slot
i listens on the target address, set its state and last-update time. -/
def stateUpdateStep (address : Nat) (value : Bool) (now : Nat)
    (c : Nat → KnxConfig) (i : Nat) : Nat → KnxConfig :=
  if (c i).stateAddress == address then
    writeCfgAt c i
      { c i with state := value, lastStateUpdateMs := now }
  else c

/-- The full update loop in knxTelegram from main.cpp: for every slot
below MAX_INPUT_COUNT whose stateAddress equals the target address, set
state and lastStateUpdateMs. -/
def applyStateUpdate (c : Nat → KnxConfig) (address : Nat) (value : Bool)
    (now : Nat) : Nat → KnxConfig :=
  (List.range MAX_INPUT_COUNT).foldl (stateUpdateStep address value now) c

/-- knxTelegram from main.cpp: ignore uninteresting telegrams, commands
other than write and answer, and payloads whose length is not 2; otherwise
update every matching slot and, if the target address is the awaited one,
clear the wait registers.  The current millisecond counter value is passed
as now.  The source checks g_knxReadWaitAddress after the update loop;
the loop never writes that variable, so the check is hoisted above the
update without changing the function. -/
def knxTelegram (s : KnxState) (telegram : KnxTelegram) (interesting : Bool)
    (now : Nat) : KnxState :=
  if !interesting then s
  else if telegram.command ≠ KnxCommand.write ∧
      telegram.command ≠ KnxCommand.answer then s
  else if telegram.payloadLength ≠ 2 then s
  else if s.waitAddress = telegram.targetGroupAddress then
    { s with
      knxConfig :=
        applyStateUpdate s.knxConfig telegram.targetGroupAddress
          telegram.getBool now,
      waitAddress := 0,
      waitSince := 0 }
  else
    { s with
      knxConfig :=
        applyStateUpdate s.knxConfig telegram.targetGroupAddress
          telegram.getBool now }

/-- The staleness test in loopKnx from main.cpp: the uint32 difference of
now and the last update time exceeds KNX_STATE_EXPIRY_MS. -/
def staleCheck (now last : Nat) : Bool :=
  decide (sub32 now last > KNX_STATE_EXPIRY_MS)

/-- The pair of assignments to g_knxReadWaitAddress and g_knxReadWaitSince
in loopKnx from main.cpp. -/
def setWait (s : KnxState) (address since : Nat) : KnxState :=
  { s with waitAddress := address, waitSince := since }

/-- The body of loopKnx from main.cpp after knx.serialEvent (telegram
delivery is modelled separately through knxTelegram): when not waiting,
pop the queue and either issue a group read and arm the wait registers,
or, when the queue was empty, push every expired slot's state address;
when waiting, requeue the awaited address and clear the wait registers
once the wait exceeds KNX_READ_TIMEOUT_MS.  Returns the new state and the
address of the group read issued this tick, if any. -/
def loopKnxBody (s : KnxState) (now : Nat) : KnxState × Option Nat :=
  if s.waitAddress = 0 then
    if (popQueue s).2 ≠ 0 then
      (setWait (popQueue s).1 (popQueue s).2 now, some (popQueue s).2)
    else
      ( (List.range MAX_INPUT_COUNT).foldl
          (fun st i =>
            if staleCheck now (st.knxConfig i).lastStateUpdateMs then
              pushQueue st (st.knxConfig i).stateAddress
            else st)
          (popQueue s).1,
        none )
  else
    if sub32 now s.waitSince > KNX_READ_TIMEOUT_MS then
      (setWait (pushQueue s s.waitAddress) 0 0, none)
    else (s, none)

/-- publishKnxEvent from main.cpp as a pure function returning the
outgoing telegram, if any: no telegram without a command address; BUTTON
sends a toggled boolean write only for single presses; ROTARY sends a
4-bit relative dim step of rate 5 whose direction is up exactly on
LOW_EVENT; CONTACT, SECURITY and SWITCH send a boolean write that is true
exactly on LOW_EVENT; PRESS and TOGGLE send a toggled boolean write;
anything else sends nothing. -/
def publishKnxEvent (s : KnxState) (index type state : Nat) :
    Option KnxOutgoing :=
  let commandAddress := (s.knxConfig (index - 1)).commandAddress
  if commandAddress = 0 then none
  else if type = BUTTON then
    if state = 1 then
      some (KnxOutgoing.writeBool commandAddress
        (!(s.knxConfig (index - 1)).state))
    else none
  else if type = ROTARY then
    some (KnxOutgoing.write4BitDim commandAddress (state == LOW_EVENT) 5)
  else if type = CONTACT ∨ type = SECURITY ∨ type = SWITCH then
    some (KnxOutgoing.writeBool commandAddress (state == LOW_EVENT))
  else if type = PRESS ∨ type = TOGGLE then
    some (KnxOutgoing.writeBool commandAddress
      (!(s.knxConfig (index - 1)).state))
  else none

/-- The firmware state at boot: all global arrays zero-initialised, head
and tail cursors at 0, no wait in progress. -/
def initState : KnxState where
  knxConfig := fun _ => ⟨0, 0, false, 0⟩
  readQueue := fun _ => 0
  headIdx := 0
  tailIdx := 0
  waitAddress := 0
  waitSince := 0

/-- A sequence of pushQueue calls. -/
def pushAll (s : KnxState) (addresses : List Nat) : KnxState :=
  addresses.foldl pushQueue s

/-- The values returned by n successive popQueue calls. -/
def popN : KnxState → Nat → List Nat
  | _, 0 => []
  | s, n + 1 => (popQueue s).2 :: popN (popQueue s).1 n

/-- The operations that touch the queue state in the firmware: a pushQueue
call (from configuration or requeueing), a popQueue call, a flushQueue
call (configuration reload), one loopKnx tick at a given time, and one
delivered telegram at a given time (with the interest flag computed by
knxTelegramCheck, as wired in initialiseKnx). -/
inductive SysOp where
  | push (address : Nat)
  | pop
  | flush
  | tick (now : Nat)
  | telegram (t : KnxTelegram) (now : Nat)

/-- Apply one system operation to the state. -/
def applySysOp (s : KnxState) : SysOp → KnxState
  | SysOp.push address => pushQueue s address
  | SysOp.pop => (popQueue s).1
  | SysOp.flush => flushQueue s
  | SysOp.tick now => (loopKnxBody s now).1
  | SysOp.telegram t now => knxTelegram s t (knxTelegramCheck s t) now

/-- Run a list of system operations from the boot state. -/
def runOps (ops : List SysOp) : KnxState :=
  ops.foldl applySysOp initState

/-- The addresses 1..n, a convenient supply of distinct nonzero group
addresses for concrete scenarios. -/
def firstAddresses (n : Nat) : List Nat :=
  (List.range n).map Nat.succ

/-- A concrete state used in witnesses: slot 0 listens on state address 9,
every command address is 7, and the firmware is waiting on address 9. -/
def waitingState : KnxState where
  knxConfig := fun i =>
    if i = 0 then ⟨7, 9, false, 0⟩ else ⟨7, 0, false, 0⟩
  readQueue := fun _ => 0
  headIdx := 0
  tailIdx := 0
  waitAddress := 9
  waitSince := 0

/-- A concrete boolean write telegram to group address 9. -/
def sampleTelegram : KnxTelegram where
  isTargetGroup := true
  targetGroupAddress := 9
  command := KnxCommand.write
  payloadLength := 2
  getBool := true

/-- A concrete telegram targeting the group address 0, the value the
firmware uses as the none marker for unconfigured slots. -/
def zeroTelegram : KnxTelegram where
  isTargetGroup := true
  targetGroupAddress := 0
  command := KnxCommand.write
  payloadLength := 2
  getBool := false

/-- The operations the queue dedup contract ranges over: a pushQueue call
with some address, or a popQueue call. -/
inductive QueueOp where
  | push (address : Nat)
  | pop

/-- Apply one queue operation to the firmware state. -/
def applyQueueOp (s : KnxState) : QueueOp → KnxState
  | QueueOp.push address => pushQueue s address
  | QueueOp.pop => (popQueue s).1

/-- Modelled from the spec: the ReadQueue reference semantics, an ordered
sequence of addresses where push appends the address when it is nonzero
and not already pending (no-op otherwise) and pop removes the head.  Used
as the abstract side of the refinement the queue code is proved against. -/
def applyAbsOp (L : List Nat) : QueueOp → List Nat
  | QueueOp.push address =>
      if address = 0 then L
      else if address ∈ L then L
      else L ++ [address]
  | QueueOp.pop => L.tail

/-! Queue lemmas: the circular buffer refines the list model queueList. -/

theorem queue_size_eq : KNX_READ_QUEUE_SIZE = 128 := rfl

theorem WF_def (s : KnxState) :
    WF s ↔ s.headIdx < 128 ∧ s.tailIdx < 128 :=
  Iff.rfl

theorem writeIdx_at (f : Nat → Nat) (i v : Nat) : writeIdx f i v i = v := by
  simp [writeIdx]

theorem map_range_writeIdx (f : Nat → Nat) (i v lo n : Nat)
    (h : i < lo ∨ lo + n ≤ i) :
    (List.range' lo n).map (writeIdx f i v) = (List.range' lo n).map f := by
  apply List.map_congr_left
  intro j hj
  rw [List.mem_range'_1] at hj
  have hne : j ≠ i := by omega
  simp [writeIdx, hne]

theorem scanRange_iff (arr : Nat → Nat) (lo hi address : Nat) :
    scanRange arr lo hi address = true ↔
      address ∈ (List.range' lo (hi - lo)).map arr := by
  simp only [scanRange, List.any_eq_true, beq_iff_eq, List.mem_map]

theorem isQueueEmpty_iff (s : KnxState) :
    isQueueEmpty s = true ↔ s.headIdx = s.tailIdx := by
  simp [isQueueEmpty]

theorem queueArc_length (arr : Nat → Nat) (T H : Nat) :
    (queueArc arr T H).length =
      if T ≤ H then H - T else KNX_READ_QUEUE_SIZE - T + H := by
  unfold queueArc
  split <;> simp

theorem queueList_length_le (s : KnxState) (hWF : WF s) :
    (queueList s).length ≤ KNX_READ_QUEUE_SIZE - 1 := by
  obtain ⟨h1, h2⟩ := (WF_def s).1 hWF
  rw [queueList, queueArc_length, queue_size_eq]
  split <;> omega

theorem queueList_nil_iff (s : KnxState) (hWF : WF s) :
    queueList s = [] ↔ isQueueEmpty s = true := by
  obtain ⟨h1, h2⟩ := (WF_def s).1 hWF
  rw [← List.length_eq_zero, queueList, queueArc_length, queue_size_eq,
    isQueueEmpty_iff]
  split <;> omega

theorem isQueued_iff (s : KnxState) (hWF : WF s) (address : Nat) :
    isQueued s address = true ↔ address ∈ queueList s := by
  obtain ⟨h1, h2⟩ := (WF_def s).1 hWF
  unfold isQueued queueList queueArc
  rcases Nat.lt_trichotomy s.tailIdx s.headIdx with hlt | heq | hgt
  · have hne : ¬ (isQueueEmpty s = true) := by
      rw [isQueueEmpty_iff]; omega
    rw [if_neg hne, if_pos hlt, if_pos (Nat.le_of_lt hlt), scanRange_iff]
  · have he : isQueueEmpty s = true := by rw [isQueueEmpty_iff]; omega
    rw [if_pos he, if_pos (Nat.le_of_eq heq)]
    simp [heq]
  · have hne : ¬ (isQueueEmpty s = true) := by
      rw [isQueueEmpty_iff]; omega
    rw [if_neg hne, if_neg (by omega : ¬ s.tailIdx < s.headIdx),
      if_neg (by omega : ¬ s.tailIdx ≤ s.headIdx), Bool.or_eq_true,
      scanRange_iff, scanRange_iff]
    simp [List.mem_append]

theorem isQueued_eq_false (s : KnxState) (hWF : WF s) (address : Nat)
    (h : address ∉ queueList s) : isQueued s address = false := by
  rcases Bool.eq_false_or_eq_true (isQueued s address) with hb | hb
  · exact absurd ((isQueued_iff s hWF address).1 hb) h
  · exact hb

theorem queueArc_push (arr : Nat → Nat) (T H a : Nat)
    (hH : H < KNX_READ_QUEUE_SIZE) (hT : T < KNX_READ_QUEUE_SIZE)
    (hroom : (queueArc arr T H).length < KNX_READ_QUEUE_SIZE - 1) :
    queueArc (writeIdx arr H a) T
      (if H + 1 = KNX_READ_QUEUE_SIZE then 0 else H + 1) =
      queueArc arr T H ++ [a] := by
  rw [queueArc_length] at hroom
  rw [queue_size_eq] at hH hT hroom ⊢
  rcases le_or_lt T H with hle | hgt
  · rw [if_pos hle] at hroom
    by_cases hw : H + 1 = 128
    · rw [if_pos hw]
      unfold queueArc
      rw [queue_size_eq]
      rw [if_neg (by omega : ¬ T ≤ 0), if_pos hle,
        show 128 - T = (H - T) + 1 from by omega, List.range'_concat,
        show T + 1 * (H - T) = H from by omega]
      rw [List.map_append, map_range_writeIdx arr H a T (H - T) (Or.inr (by omega))]
      simp [writeIdx]
    · rw [if_neg hw]
      unfold queueArc
      rw [if_pos hle, if_pos (by omega : T ≤ H + 1),
        show H + 1 - T = (H - T) + 1 from by omega, List.range'_concat,
        show T + 1 * (H - T) = H from by omega]
      rw [List.map_append, map_range_writeIdx arr H a T (H - T) (Or.inr (by omega))]
      simp [writeIdx]
  · rw [if_neg (by omega : ¬ T ≤ H)] at hroom
    have hw : ¬ (H + 1 = 128) := by omega
    rw [if_neg hw]
    unfold queueArc
    rw [queue_size_eq]
    rw [if_neg (by omega : ¬ T ≤ H), if_neg (by omega : ¬ T ≤ H + 1),
      List.range'_concat 0 H, show 0 + 1 * H = H from by omega]
    rw [List.map_append,
      map_range_writeIdx arr H a T (128 - T) (Or.inl hgt),
      map_range_writeIdx arr H a 0 H (Or.inr (by omega))]
    simp [writeIdx, List.append_assoc]

theorem queueArc_collapse (arr : Nat → Nat) (T H a : Nat)
    (hH : H < KNX_READ_QUEUE_SIZE) (hT : T < KNX_READ_QUEUE_SIZE)
    (hful : (queueArc arr T H).length = KNX_READ_QUEUE_SIZE - 1) :
    queueArc (writeIdx arr H a) T
      (if H + 1 = KNX_READ_QUEUE_SIZE then 0 else H + 1) = [] := by
  rw [queueArc_length] at hful
  rw [queue_size_eq] at hH hT hful ⊢
  rcases le_or_lt T H with hle | hgt
  · rw [if_pos hle] at hful
    have hT0 : T = 0 := by omega
    rw [if_pos (by omega : H + 1 = 128)]
    unfold queueArc
    rw [if_pos (by omega : T ≤ 0)]
    simp [hT0]
  · rw [if_neg (by omega : ¬ T ≤ H)] at hful
    have hTH : T = H + 1 := by omega
    rw [if_neg (by omega : ¬ (H + 1 = 128))]
    unfold queueArc
    rw [if_pos (by omega : T ≤ H + 1)]
    simp [hTH]

theorem queueArc_pop (arr : Nat → Nat) (T H x : Nat) (rest : List Nat)
    (hH : H < KNX_READ_QUEUE_SIZE) (hT : T < KNX_READ_QUEUE_SIZE)
    (hcons : queueArc arr T H = x :: rest) :
    arr T = x ∧
    queueArc arr (if T + 1 = KNX_READ_QUEUE_SIZE then 0 else T + 1) H = rest ∧
    T ≠ H := by
  rw [queue_size_eq] at hH hT ⊢
  rcases Nat.lt_trichotomy T H with hlt | heq | hgt
  · unfold queueArc at hcons ⊢
    rw [if_pos (Nat.le_of_lt hlt),
      show H - T = (H - T - 1) + 1 from by omega, List.range'_succ,
      List.map_cons] at hcons
    obtain ⟨hx, hrest⟩ := List.cons.inj hcons
    refine ⟨hx, ?_, by omega⟩
    rw [if_neg (by omega : ¬ (T + 1 = 128)), if_pos (by omega : T + 1 ≤ H),
      show H - (T + 1) = H - T - 1 from by omega]
    exact hrest
  · exfalso
    unfold queueArc at hcons
    rw [if_pos (Nat.le_of_eq heq)] at hcons
    simp [heq] at hcons
  · unfold queueArc at hcons ⊢
    rw [if_neg (by omega : ¬ T ≤ H), queue_size_eq,
      show 128 - T = (128 - T - 1) + 1 from by omega, List.range'_succ,
      List.map_cons, List.cons_append] at hcons
    obtain ⟨hx, hrest⟩ := List.cons.inj hcons
    refine ⟨hx, ?_, by omega⟩
    by_cases hw : T + 1 = 128
    · rw [if_pos hw, if_pos (Nat.zero_le H)]
      rw [show (128 - T - 1) = 0 from by omega] at hrest
      simp only [List.range'_zero, List.map_nil, List.nil_append] at hrest
      rw [show H - 0 = H from by omega]
      exact hrest
    · rw [if_neg hw]
      by_cases hTH : T + 1 ≤ H
      · exact absurd hTH (by omega)
      · rw [if_neg hTH, queue_size_eq,
          show 128 - (T + 1) = 128 - T - 1 from by omega]
        exact hrest

theorem pushQueue_noop_zero (s : KnxState) : pushQueue s 0 = s := by
  simp [pushQueue]

theorem pushQueue_noop_queued (s : KnxState) (a : Nat)
    (h : isQueued s a = true) : pushQueue s a = s := by
  by_cases ha : a = 0
  · simp [pushQueue, ha]
  · simp [pushQueue, ha, h]

theorem pushQueue_not_queued (s : KnxState) (a : Nat) (ha : a ≠ 0)
    (hq : isQueued s a = false) :
    pushQueue s a =
      { s with
        readQueue := writeIdx s.readQueue s.headIdx a,
        headIdx :=
          if s.headIdx + 1 = KNX_READ_QUEUE_SIZE then 0
          else s.headIdx + 1 } := by
  simp [pushQueue, ha, hq]

theorem pushQueue_frame (s : KnxState) (a : Nat) :
    (pushQueue s a).tailIdx = s.tailIdx ∧
    (pushQueue s a).waitAddress = s.waitAddress ∧
    (pushQueue s a).waitSince = s.waitSince ∧
    (pushQueue s a).knxConfig = s.knxConfig := by
  unfold pushQueue
  split
  · exact ⟨rfl, rfl, rfl, rfl⟩
  · split
    · exact ⟨rfl, rfl, rfl, rfl⟩
    · exact ⟨rfl, rfl, rfl, rfl⟩

theorem pushQueue_WF (s : KnxState) (a : Nat) (hWF : WF s) :
    WF (pushQueue s a) := by
  unfold pushQueue
  split
  · exact hWF
  split
  · exact hWF
  · obtain ⟨h1, h2⟩ := (WF_def s).1 hWF
    rw [WF_def]
    refine ⟨?_, h2⟩
    show (if s.headIdx + 1 = KNX_READ_QUEUE_SIZE then 0 else s.headIdx + 1) < 128
    rw [queue_size_eq]
    split <;> omega

theorem pushQueue_append (s : KnxState) (a : Nat) (hWF : WF s) (ha : a ≠ 0)
    (hmem : a ∉ queueList s)
    (hroom : (queueList s).length < KNX_READ_QUEUE_SIZE - 1) :
    queueList (pushQueue s a) = queueList s ++ [a] := by
  rw [pushQueue_not_queued s a ha (isQueued_eq_false s hWF a hmem)]
  show queueArc (writeIdx s.readQueue s.headIdx a) s.tailIdx
      (if s.headIdx + 1 = KNX_READ_QUEUE_SIZE then 0 else s.headIdx + 1) =
    queueList s ++ [a]
  exact queueArc_push s.readQueue s.tailIdx s.headIdx a hWF.1 hWF.2 hroom

theorem pushQueue_full_collapse (s : KnxState) (a : Nat) (hWF : WF s)
    (ha : a ≠ 0) (hmem : a ∉ queueList s)
    (hful : (queueList s).length = KNX_READ_QUEUE_SIZE - 1) :
    queueList (pushQueue s a) = [] := by
  rw [pushQueue_not_queued s a ha (isQueued_eq_false s hWF a hmem)]
  show queueArc (writeIdx s.readQueue s.headIdx a) s.tailIdx
      (if s.headIdx + 1 = KNX_READ_QUEUE_SIZE then 0 else s.headIdx + 1) = []
  exact queueArc_collapse s.readQueue s.tailIdx s.headIdx a hWF.1 hWF.2 hful

theorem pushQueue_queueList_cases (s : KnxState) (a : Nat) (hWF : WF s) :
    queueList (pushQueue s a) = queueList s ∨
    queueList (pushQueue s a) = queueList s ++ [a] ∨
    queueList (pushQueue s a) = [] := by
  by_cases ha : a = 0
  · left
    rw [ha, pushQueue_noop_zero]
  by_cases hq : isQueued s a = true
  · left
    rw [pushQueue_noop_queued s a hq]
  have hmem : a ∉ queueList s := fun hm => hq ((isQueued_iff s hWF a).2 hm)
  rcases Nat.lt_or_ge (queueList s).length (KNX_READ_QUEUE_SIZE - 1) with hlt | hge
  · right; left
    exact pushQueue_append s a hWF ha hmem hlt
  · right; right
    exact pushQueue_full_collapse s a hWF ha hmem
      (Nat.le_antisymm (queueList_length_le s hWF) hge)

theorem pushQueue_mem_sub (s : KnxState) (a b : Nat) (hWF : WF s)
    (h : b ∈ queueList (pushQueue s a)) : b ∈ queueList s ∨ b = a := by
  rcases pushQueue_queueList_cases s a hWF with hc | hc | hc <;> rw [hc] at h
  · exact Or.inl h
  · rcases List.mem_append.1 h with hm | hm
    · exact Or.inl hm
    · exact Or.inr (List.mem_singleton.1 hm)
  · exact absurd h (List.not_mem_nil b)

theorem popQueue_of_empty (s : KnxState) (h : isQueueEmpty s = true) :
    popQueue s = (s, 0) := by
  simp [popQueue, h]

theorem popQueue_cons (s : KnxState) (hWF : WF s) (x : Nat) (rest : List Nat)
    (hcons : queueList s = x :: rest) :
    (popQueue s).2 = x ∧ queueList (popQueue s).1 = rest ∧
    WF (popQueue s).1 ∧ (popQueue s).1.headIdx = s.headIdx ∧
    (popQueue s).1.readQueue = s.readQueue ∧
    (popQueue s).1.waitAddress = s.waitAddress ∧
    (popQueue s).1.waitSince = s.waitSince ∧
    (popQueue s).1.knxConfig = s.knxConfig := by
  obtain ⟨harr, hrest, hTH⟩ :=
    queueArc_pop s.readQueue s.tailIdx s.headIdx x rest hWF.1 hWF.2 hcons
  have hne : isQueueEmpty s = false := by
    simp only [isQueueEmpty, beq_eq_false_iff_ne, ne_eq]
    omega
  have hpop : popQueue s =
      ( { s with
          tailIdx :=
            if s.tailIdx + 1 = KNX_READ_QUEUE_SIZE then 0
            else s.tailIdx + 1 },
        s.readQueue s.tailIdx ) := by
    simp [popQueue, hne]
  rw [hpop]
  obtain ⟨h1, h2⟩ := (WF_def s).1 hWF
  refine ⟨harr, ?_, ?_, rfl, rfl, rfl, rfl, rfl⟩
  · show queueArc s.readQueue
      (if s.tailIdx + 1 = KNX_READ_QUEUE_SIZE then 0 else s.tailIdx + 1)
      s.headIdx = rest
    exact hrest
  · rw [WF_def]
    refine ⟨h1, ?_⟩
    show (if s.tailIdx + 1 = KNX_READ_QUEUE_SIZE then 0 else s.tailIdx + 1) < 128
    rw [queue_size_eq]
    split <;> omega

theorem pushAll_spec : ∀ (as : List Nat) (s : KnxState), WF s → as.Nodup →
    (∀ a ∈ as, a ≠ 0) → (∀ a ∈ as, a ∉ queueList s) →
    (queueList s).length + as.length ≤ KNX_READ_QUEUE_SIZE - 1 →
    queueList (pushAll s as) = queueList s ++ as ∧ WF (pushAll s as) := by
  intro as
  induction as with
  | nil =>
    intro s hWF _ _ _ _
    exact ⟨by simp [pushAll], by simpa [pushAll] using hWF⟩
  | cons a as ih =>
    intro s hWF hnd hnz hfresh hroom
    have ha : a ≠ 0 := hnz a (List.mem_cons_self a as)
    have hm : a ∉ queueList s := hfresh a (List.mem_cons_self a as)
    have hroom1 : (queueList s).length < KNX_READ_QUEUE_SIZE - 1 := by
      rw [List.length_cons] at hroom
      omega
    have hpush := pushQueue_append s a hWF ha hm hroom1
    have hWF1 := pushQueue_WF s a hWF
    have step : pushAll s (a :: as) = pushAll (pushQueue s a) as := by
      simp [pushAll]
    rw [step]
    obtain ⟨h1, h2⟩ := ih (pushQueue s a) hWF1 hnd.of_cons
      (fun b hb => hnz b (List.mem_cons_of_mem a hb))
      (fun b hb => by
        rw [hpush]
        intro hmem
        rcases List.mem_append.1 hmem with hin | hin
        · exact hfresh b (List.mem_cons_of_mem a hb) hin
        · rcases List.mem_singleton.1 hin with rfl
          exact (List.nodup_cons.1 hnd).1 hb)
      (by
        rw [hpush, List.length_append, List.length_singleton]
        rw [List.length_cons] at hroom
        omega)
    refine ⟨?_, h2⟩
    rw [h1, hpush, List.append_assoc, List.singleton_append]

theorem popN_spec : ∀ (n : Nat) (s : KnxState), WF s →
    (queueList s).length = n → popN s n = queueList s := by
  intro n
  induction n with
  | zero =>
    intro s _ h
    rw [List.length_eq_zero] at h
    rw [h, popN]
  | succ n ih =>
    intro s hWF h
    cases hc : queueList s with
    | nil =>
      rw [hc] at h
      simp at h
    | cons x rest =>
      obtain ⟨hx, hrest, hWF1, _⟩ := popQueue_cons s hWF x rest hc
      have hq2 : (queueList (popQueue s).1).length = n := by
        rw [hrest]
        rw [hc, List.length_cons] at h
        omega
      simp only [popN]
      rw [hx, ih (popQueue s).1 hWF1 hq2, hrest]

theorem nodup_subset_length_le (L allowed : List Nat) (hnd : L.Nodup)
    (hsub : ∀ x ∈ L, x ∈ allowed) : L.length ≤ allowed.length :=
  (hnd.subperm fun x hx => hsub x hx).length_le

theorem pushQueue_contract (allowed : List Nat) (s : KnxState) (a : Nat)
    (hbound : allowed.length ≤ KNX_READ_QUEUE_SIZE - 1)
    (hWF : WF s) (hnd : (queueList s).Nodup)
    (hsub : ∀ x ∈ queueList s, x ∈ allowed)
    (ha : a ∈ allowed) (ha0 : a ≠ 0) :
    queueList (pushQueue s a) =
      if a ∈ queueList s then queueList s else queueList s ++ [a] := by
  by_cases hm : a ∈ queueList s
  · rw [if_pos hm, pushQueue_noop_queued s a ((isQueued_iff s hWF a).2 hm)]
  · rw [if_neg hm]
    have hle := nodup_subset_length_le (a :: queueList s) allowed
      (List.nodup_cons.2 ⟨hm, hnd⟩)
      (by
        intro x hx
        rcases List.mem_cons.1 hx with h | h
        · rw [h]
          exact ha
        · exact hsub x h)
    rw [List.length_cons] at hle
    exact pushQueue_append s a hWF ha0 hm (by omega)

theorem queueOps_refinement (allowed : List Nat)
    (hbound : allowed.length ≤ KNX_READ_QUEUE_SIZE - 1) :
    ∀ (ops : List QueueOp) (s : KnxState), WF s → (queueList s).Nodup →
    (∀ x ∈ queueList s, x ∈ allowed) →
    (∀ a, QueueOp.push a ∈ ops → a ∈ allowed) →
    queueList (ops.foldl applyQueueOp s) =
      ops.foldl applyAbsOp (queueList s) ∧
    WF (ops.foldl applyQueueOp s) ∧
    (queueList (ops.foldl applyQueueOp s)).Nodup := by
  intro ops
  induction ops with
  | nil =>
    intro s hWF hnd hsub _
    exact ⟨rfl, hWF, hnd⟩
  | cons op ops ih =>
    intro s hWF hnd hsub hops
    have hops2 : ∀ a, QueueOp.push a ∈ ops → a ∈ allowed :=
      fun a ha => hops a (List.mem_cons_of_mem op ha)
    rw [List.foldl_cons, List.foldl_cons]
    cases op with
    | push a =>
      have ha : a ∈ allowed ∨ a = 0 := by
        by_cases h0 : a = 0
        · exact Or.inr h0
        · exact Or.inl (hops a (List.mem_cons_self _ _))
      simp only [applyQueueOp, applyAbsOp]
      by_cases h0 : a = 0
      · rw [if_pos h0, h0, pushQueue_noop_zero]
        exact ih s hWF hnd hsub hops2
      · rw [if_neg h0]
        have haa : a ∈ allowed := ha.resolve_right h0
        have hcontract := pushQueue_contract allowed s a hbound hWF hnd hsub
          haa h0
        by_cases hm : a ∈ queueList s
        · rw [if_pos hm,
            pushQueue_noop_queued s a ((isQueued_iff s hWF a).2 hm)]
          exact ih s hWF hnd hsub hops2
        · rw [if_neg hm] at hcontract
          rw [if_neg hm]
          have hWF2 := pushQueue_WF s a hWF
          have hnd2 : (queueList (pushQueue s a)).Nodup := by
            rw [hcontract, List.nodup_append]
            refine ⟨hnd, List.nodup_singleton a, ?_⟩
            intro b hb hb2
            rcases List.mem_singleton.1 hb2 with rfl
            exact hm hb
          have hsub2 : ∀ x ∈ queueList (pushQueue s a), x ∈ allowed := by
            rw [hcontract]
            intro x hx
            rcases List.mem_append.1 hx with h | h
            · exact hsub x h
            · rcases List.mem_singleton.1 h with rfl
              exact haa
          have hih := ih (pushQueue s a) hWF2 hnd2 hsub2 hops2
          rw [hcontract] at hih
          exact hih
    | pop =>
      simp only [applyQueueOp, applyAbsOp]
      cases hc : queueList s with
      | nil =>
        have hpop : (popQueue s).1 = s := by
          rw [popQueue_of_empty s ((queueList_nil_iff s hWF).1 hc)]
        rw [hpop]
        have hih := ih s hWF hnd hsub hops2
        rw [hc] at hih
        exact hih
      | cons x rest =>
        obtain ⟨_, hql, hWF2, _⟩ := popQueue_cons s hWF x rest hc
        have hnd2 : (queueList (popQueue s).1).Nodup := by
          rw [hql]
          rw [hc] at hnd
          exact hnd.of_cons
        have hsub2 : ∀ y ∈ queueList (popQueue s).1, y ∈ allowed := by
          rw [hql]
          intro y hy
          refine hsub y ?_
          rw [hc]
          exact List.mem_cons_of_mem x hy
        have hih := ih (popQueue s).1 hWF2 hnd2 hsub2 hops2
        rw [hql] at hih
        exact hih

theorem foldl_preserve {α β : Type} (P : α → Prop) (f : α → β → α)
    (hf : ∀ x b, P x → P (f x b)) :
    ∀ (l : List β) (s : α), P s → P (l.foldl f s) := by
  intro l
  induction l with
  | nil =>
    intro s hs
    simpa using hs
  | cons b l ih =>
    intro s hs
    rw [List.foldl_cons]
    exact ih (f s b) (hf s b hs)

theorem pushQueue_QInv (s : KnxState) (a : Nat) (h : QInv s) :
    QInv (pushQueue s a) := by
  obtain ⟨hWF, hnd, h0⟩ := h
  refine ⟨pushQueue_WF s a hWF, ?_⟩
  by_cases ha : a = 0
  · rw [ha, pushQueue_noop_zero]
    exact ⟨hnd, h0⟩
  by_cases hq : isQueued s a = true
  · rw [pushQueue_noop_queued s a hq]
    exact ⟨hnd, h0⟩
  have hmem : a ∉ queueList s := fun hm => hq ((isQueued_iff s hWF a).2 hm)
  rcases Nat.lt_or_ge (queueList s).length (KNX_READ_QUEUE_SIZE - 1) with hlt | hge
  · rw [pushQueue_append s a hWF ha hmem hlt]
    constructor
    · rw [List.nodup_append]
      refine ⟨hnd, List.nodup_singleton a, ?_⟩
      intro b hb hb2
      rcases List.mem_singleton.1 hb2 with rfl
      exact hmem hb
    · intro hc
      rcases List.mem_append.1 hc with hin | hin
      · exact h0 hin
      · exact ha (List.mem_singleton.1 hin).symm
  · rw [pushQueue_full_collapse s a hWF ha hmem
      (Nat.le_antisymm (queueList_length_le s hWF) hge)]
    exact ⟨List.nodup_nil, List.not_mem_nil 0⟩

theorem popQueue_QInv (s : KnxState) (h : QInv s) : QInv (popQueue s).1 := by
  obtain ⟨hWF, hnd, h0⟩ := h
  cases hc : queueList s with
  | nil =>
    rw [popQueue_of_empty s ((queueList_nil_iff s hWF).1 hc)]
    exact ⟨hWF, hnd, h0⟩
  | cons x rest =>
    obtain ⟨_, hrest, hWF1, _⟩ := popQueue_cons s hWF x rest hc
    refine ⟨hWF1, ?_, ?_⟩
    · rw [hrest]
      rw [hc] at hnd
      exact hnd.of_cons
    · rw [hrest]
      intro hm
      rw [hc] at h0
      exact h0 (List.mem_cons_of_mem x hm)

theorem flushQueue_queueList (s : KnxState) : queueList (flushQueue s) = [] := by
  show queueArc s.readQueue 0 0 = []
  unfold queueArc
  simp

theorem flushQueue_QInv (s : KnxState) : QInv (flushQueue s) := by
  refine ⟨⟨?_, ?_⟩, ?_, ?_⟩
  · show (0 : Nat) < KNX_READ_QUEUE_SIZE
    decide
  · show (0 : Nat) < KNX_READ_QUEUE_SIZE
    decide
  · rw [flushQueue_queueList]
    exact List.nodup_nil
  · rw [flushQueue_queueList]
    exact List.not_mem_nil 0

theorem knxTelegram_queue_frame (s : KnxState) (t : KnxTelegram)
    (interesting : Bool) (now : Nat) :
    (knxTelegram s t interesting now).readQueue = s.readQueue ∧
    (knxTelegram s t interesting now).headIdx = s.headIdx ∧
    (knxTelegram s t interesting now).tailIdx = s.tailIdx := by
  unfold knxTelegram
  split
  · exact ⟨rfl, rfl, rfl⟩
  split
  · exact ⟨rfl, rfl, rfl⟩
  split
  · exact ⟨rfl, rfl, rfl⟩
  split
  · exact ⟨rfl, rfl, rfl⟩
  · exact ⟨rfl, rfl, rfl⟩

theorem queueList_congr (s1 s2 : KnxState) (hq : s1.readQueue = s2.readQueue)
    (hh : s1.headIdx = s2.headIdx) (ht : s1.tailIdx = s2.tailIdx) :
    queueList s1 = queueList s2 := by
  unfold queueList
  rw [hq, hh, ht]

theorem scanFold_QInv (now : Nat) :
    ∀ (l : List Nat) (s : KnxState), QInv s →
    QInv (l.foldl
      (fun st i =>
        if staleCheck now (st.knxConfig i).lastStateUpdateMs then
          pushQueue st (st.knxConfig i).stateAddress
        else st) s) := by
  intro l
  induction l with
  | nil =>
    intro s hs
    exact hs
  | cons b l ih =>
    intro s hs
    rw [List.foldl_cons]
    apply ih
    show QInv (if staleCheck now (s.knxConfig b).lastStateUpdateMs then
      pushQueue s (s.knxConfig b).stateAddress else s)
    split
    · exact pushQueue_QInv s _ hs
    · exact hs

theorem loopKnxBody_QInv (s : KnxState) (now : Nat) (h : QInv s) :
    QInv (loopKnxBody s now).1 := by
  unfold loopKnxBody
  split
  · split
    · exact popQueue_QInv s h
    · dsimp only
      exact scanFold_QInv now (List.range MAX_INPUT_COUNT) (popQueue s).1
        (popQueue_QInv s h)
  · split
    · exact pushQueue_QInv s s.waitAddress h
    · exact h

theorem applySysOp_QInv (s : KnxState) (op : SysOp) (h : QInv s) :
    QInv (applySysOp s op) := by
  cases op with
  | push a => exact pushQueue_QInv s a h
  | pop => exact popQueue_QInv s h
  | flush => exact flushQueue_QInv s
  | tick now => exact loopKnxBody_QInv s now h
  | telegram t now =>
    obtain ⟨hWF, hnd, h0⟩ := h
    obtain ⟨hq, hh, ht⟩ := knxTelegram_queue_frame s t (knxTelegramCheck s t) now
    have hql : queueList (knxTelegram s t (knxTelegramCheck s t) now) =
        queueList s := queueList_congr _ s hq hh ht
    show QInv (knxTelegram s t (knxTelegramCheck s t) now)
    refine ⟨?_, ?_, ?_⟩
    · rw [WF_def] at hWF ⊢
      rw [hh, ht]
      exact hWF
    · rw [hql]
      exact hnd
    · rw [hql]
      exact h0

theorem initState_QInv : QInv initState :=
  ⟨by decide, by decide, by decide⟩

theorem runOps_QInv (ops : List SysOp) : QInv (runOps ops) := by
  unfold runOps
  exact foldl_preserve QInv applySysOp applySysOp_QInv ops initState initState_QInv

theorem isQueued_congr (s1 s2 : KnxState) (hq : s1.readQueue = s2.readQueue)
    (hh : s1.headIdx = s2.headIdx) (ht : s1.tailIdx = s2.tailIdx) (a : Nat) :
    isQueued s1 a = isQueued s2 a := by
  unfold isQueued isQueueEmpty
  rw [hq, hh, ht]

theorem stateUpdateStep_addr (address : Nat) (value : Bool) (now : Nat)
    (c : Nat → KnxConfig) (i j : Nat) :
    ((stateUpdateStep address value now c i) j).stateAddress =
      (c j).stateAddress := by
  unfold stateUpdateStep writeCfgAt
  split
  · by_cases hj : j = i
    · subst hj
      simp
    · simp [hj]
  · rfl

theorem foldl_stateUpdate_addr (address : Nat) (value : Bool) (now : Nat) :
    ∀ (l : List Nat) (c : Nat → KnxConfig) (j : Nat),
    ((l.foldl (stateUpdateStep address value now) c) j).stateAddress =
      (c j).stateAddress := by
  intro l
  induction l with
  | nil =>
    intro c j
    rfl
  | cons i l ih =>
    intro c j
    rw [List.foldl_cons, ih]
    exact stateUpdateStep_addr address value now c i j

theorem foldl_stateUpdate_untouched (address : Nat) (value : Bool) (now : Nat) :
    ∀ (l : List Nat) (c : Nat → KnxConfig) (j : Nat), j ∉ l →
    (l.foldl (stateUpdateStep address value now) c) j = c j := by
  intro l
  induction l with
  | nil =>
    intro c j _
    rfl
  | cons i l ih =>
    intro c j hj
    have hji : j ≠ i := fun hc => hj (hc ▸ List.mem_cons_self i l)
    have hjl : j ∉ l := fun hc => hj (List.mem_cons_of_mem i hc)
    rw [List.foldl_cons, ih _ j hjl]
    unfold stateUpdateStep writeCfgAt
    split
    · simp [hji]
    · rfl

theorem foldl_stateUpdate_applied (address : Nat) (value : Bool) (now : Nat) :
    ∀ (l : List Nat) (c : Nat → KnxConfig) (j : Nat), j ∈ l →
    (c j).stateAddress = address →
    ((l.foldl (stateUpdateStep address value now) c) j).state = value ∧
    ((l.foldl (stateUpdateStep address value now) c) j).lastStateUpdateMs =
      now := by
  intro l
  induction l with
  | nil =>
    intro c j hj _
    exact absurd hj (List.not_mem_nil j)
  | cons i l ih =>
    intro c j hj hsa
    rw [List.foldl_cons]
    by_cases hjl : j ∈ l
    · refine ih _ j hjl ?_
      rw [stateUpdateStep_addr]
      exact hsa
    · have hji : j = i := by
        rcases List.mem_cons.1 hj with h | h
        · exact h
        · exact absurd h hjl
      subst hji
      rw [foldl_stateUpdate_untouched address value now l _ j hjl]
      unfold stateUpdateStep writeCfgAt
      rw [if_pos (by rw [beq_iff_eq]; exact hsa)]
      simp

theorem knxTelegram_accepted (s : KnxState) (t : KnxTelegram) (now : Nat)
    (hcmd : t.command = KnxCommand.write ∨ t.command = KnxCommand.answer)
    (hlen : t.payloadLength = 2)
    (hwait : s.waitAddress = t.targetGroupAddress) :
    knxTelegram s t true now =
      { s with
        knxConfig :=
          applyStateUpdate s.knxConfig t.targetGroupAddress t.getBool now,
        waitAddress := 0,
        waitSince := 0 } := by
  unfold knxTelegram
  rw [if_neg (by simp : ¬ ((!true) = true))]
  rw [if_neg (by rcases hcmd with h | h <;> simp [h] :
    ¬ (t.command ≠ KnxCommand.write ∧ t.command ≠ KnxCommand.answer))]
  rw [if_neg (by simp [hlen] : ¬ (t.payloadLength ≠ 2)), if_pos hwait]

/-! Claim theorems. -/

/-- C1: queue dedup invariant.  Over every sequence of firmware operations
from the boot state (pushes in particular), every group address occurs at
most once on the occupied arc of the read queue; pushQueue is a no-op on
the none address 0 and on an address already queued; and isQueued answers
exactly membership on the occupied arc from tail to head, wrapped or not. -/
theorem C1_queue_dedup_invariant :
    (∀ ops : List SysOp, (queueList (runOps ops)).Nodup) ∧
    (∀ s : KnxState, pushQueue s 0 = s) ∧
    (∀ (s : KnxState) (a : Nat), isQueued s a = true → pushQueue s a = s) ∧
    (∀ (s : KnxState) (a : Nat), WF s →
      (isQueued s a = true ↔ a ∈ queueList s)) :=
  ⟨fun ops => (runOps_QInv ops).2.1, pushQueue_noop_zero,
    pushQueue_noop_queued, fun s a hWF => isQueued_iff s hWF a⟩

/-- Witness for C1 at concrete inputs: a duplicate push sequence stays
duplicate-free, pushing 0 is a no-op, a queued address is absorbed, and
the membership test agrees with the arc model. -/
theorem C1_queue_dedup_invariant_witness :
    (queueList (runOps [SysOp.push 5, SysOp.push 5, SysOp.push 7])).Nodup ∧
    pushQueue initState 0 = initState ∧
    pushQueue (pushQueue initState 5) 5 = pushQueue initState 5 ∧
    (isQueued (pushQueue initState 5) 5 = true ↔
      5 ∈ queueList (pushQueue initState 5)) := by
  have h := C1_queue_dedup_invariant
  exact ⟨h.1 [SysOp.push 5, SysOp.push 5, SysOp.push 7], h.2.1 initState,
    h.2.2.1 (pushQueue initState 5) 5 (by decide),
    h.2.2.2 (pushQueue initState 5) 5 (by decide)⟩

theorem firstAddresses_nodup (n : Nat) : (firstAddresses n).Nodup :=
  (List.nodup_range n).map Nat.succ_injective

theorem firstAddresses_pos (n : Nat) : ∀ a ∈ firstAddresses n, a ≠ 0 := by
  intro a ha
  rw [firstAddresses, List.mem_map] at ha
  obtain ⟨k, _, rfl⟩ := ha
  exact Nat.succ_ne_zero k

theorem firstAddresses_length (n : Nat) : (firstAddresses n).length = n := by
  simp [firstAddresses]

theorem not_mem_firstAddresses (n : Nat) : n + 1 ∉ firstAddresses n := by
  rw [firstAddresses, List.mem_map]
  rintro ⟨k, hk, hs⟩
  rw [List.mem_range] at hk
  omega

theorem collapse128_empty :
    isQueueEmpty (pushAll initState (firstAddresses 128)) = true := by
  obtain ⟨hq, hWF⟩ := pushAll_spec (firstAddresses 127) initState (by decide)
    (firstAddresses_nodup 127) (firstAddresses_pos 127)
    (by
      intro a _
      rw [show queueList initState = [] from rfl]
      exact List.not_mem_nil a)
    (by
      rw [show queueList initState = [] from rfl, firstAddresses_length]
      decide)
  have hqs : queueList (pushAll initState (firstAddresses 127)) =
      firstAddresses 127 := by
    rw [hq, show queueList initState = [] from rfl, List.nil_append]
  have hsplit : firstAddresses 128 = firstAddresses 127 ++ [128] := by
    simp [firstAddresses, List.range_succ]
  have hstep : pushAll initState (firstAddresses 128) =
      pushQueue (pushAll initState (firstAddresses 127)) 128 := by
    rw [hsplit]
    exact List.foldl_concat pushQueue initState 128 (firstAddresses 127)
  have hcol : queueList (pushAll initState (firstAddresses 128)) = [] := by
    rw [hstep]
    refine pushQueue_full_collapse _ 128 hWF (by decide) ?_ ?_
    · rw [hqs]
      exact not_mem_firstAddresses 127
    · rw [hqs, firstAddresses_length]
      decide
  exact (queueList_nil_iff _ (by rw [hstep]; exact pushQueue_WF _ _ hWF)).1 hcol

/-- C2 counterexample: the dedup contract of the claim allows as many
distinct addresses as the slot count, 128, which equals the queue
capacity.  Pushing the 128 distinct nonzero addresses 1..128 into the
boot-state queue makes head meet tail again: the queue then reports
empty, every unpopped entry has become unreachable, and popQueue returns
the none address forever. -/
theorem C2_queue_full_counterexample :
    isQueueEmpty (pushAll initState (firstAddresses 128)) = true ∧
    popQueue (pushAll initState (firstAddresses 128)) =
      (pushAll initState (firstAddresses 128), 0) :=
  ⟨collapse128_empty, popQueue_of_empty _ collapse128_empty⟩

/-- C2 amended: under the dedup contract with the distinct pushable
addresses drawn from a pool of at most capacity minus one addresses (127,
one slot is sacrificed to tell empty from full), a single pushQueue call
either absorbs the address or appends it, never overwriting or losing an
unread entry; and after ANY interleaved sequence of pushQueue and
popQueue calls from any well-formed duplicate-free state whose content
lies in the pool, the occupied arc equals the abstract FIFO run
(append-if-absent on push, drop-head on pop), and popping that many times
returns exactly the pushed-and-not-yet-popped addresses in order. -/
theorem C2_queue_full_amended :
    (∀ (allowed : List Nat) (s : KnxState) (a : Nat),
      allowed.length ≤ KNX_READ_QUEUE_SIZE - 1 →
      WF s → (queueList s).Nodup → (∀ x ∈ queueList s, x ∈ allowed) →
      a ∈ allowed →
      queueList (pushQueue s a) = queueList s ∨
      queueList (pushQueue s a) = queueList s ++ [a]) ∧
    (∀ (allowed : List Nat) (ops : List QueueOp) (s : KnxState),
      allowed.length ≤ KNX_READ_QUEUE_SIZE - 1 →
      WF s → (queueList s).Nodup → (∀ x ∈ queueList s, x ∈ allowed) →
      (∀ a, QueueOp.push a ∈ ops → a ∈ allowed) →
      queueList (ops.foldl applyQueueOp s) =
        ops.foldl applyAbsOp (queueList s) ∧
      popN (ops.foldl applyQueueOp s)
          (ops.foldl applyAbsOp (queueList s)).length =
        ops.foldl applyAbsOp (queueList s)) := by
  constructor
  · intro allowed s a hbound hWF hnd hsub ha
    by_cases h0 : a = 0
    · left
      rw [h0, pushQueue_noop_zero]
    · have hcontract := pushQueue_contract allowed s a hbound hWF hnd hsub
        ha h0
      by_cases hm : a ∈ queueList s
      · left
        rw [hcontract, if_pos hm]
      · right
        rw [hcontract, if_neg hm]
  · intro allowed ops s hbound hWF hnd hsub hops
    obtain ⟨hq, hWF2, _⟩ :=
      queueOps_refinement allowed hbound ops s hWF hnd hsub hops
    refine ⟨hq, ?_⟩
    have hp := popN_spec (ops.foldl applyAbsOp (queueList s)).length
      (ops.foldl applyQueueOp s) hWF2 (by rw [hq])
    rw [hp, hq]

/-- Witness for C2 amended: the pool 5, 7; a single fresh push appends,
and the interleaved run push 5, push 7, pop, push 5 from boot leaves the
pending addresses 7 then 5, which two pops return in that order. -/
theorem C2_queue_full_amended_witness :
    (queueList (pushQueue initState 5) = queueList initState ∨
      queueList (pushQueue initState 5) = queueList initState ++ [5]) ∧
    queueList ([QueueOp.push 5, QueueOp.push 7, QueueOp.pop,
      QueueOp.push 5].foldl applyQueueOp initState) = [7, 5] ∧
    popN ([QueueOp.push 5, QueueOp.push 7, QueueOp.pop,
      QueueOp.push 5].foldl applyQueueOp initState) 2 = [7, 5] := by
  have h := C2_queue_full_amended
  have h2 := h.2 [5, 7]
    [QueueOp.push 5, QueueOp.push 7, QueueOp.pop, QueueOp.push 5] initState
    (by decide) (by decide) (by decide) (by decide)
    (by
      intro a ha
      simp only [List.mem_cons, List.not_mem_nil, or_false] at ha
      rcases ha with hx | hx | hx | hx
      · injection hx with hx2
        subst hx2
        decide
      · injection hx with hx2
        subst hx2
        decide
      · injection hx
      · injection hx with hx2
        subst hx2
        decide)
  exact ⟨h.1 [5, 7] initState 5 (by decide) (by decide) (by decide)
    (by decide) (by decide), h2.1, h2.2⟩

/-- C3 counterexample: push the distinct nonzero addresses 1..128 from the
boot state with no intervening pop; the claim demands the next pop return
the first pushed address 1, but the queue has collapsed to empty and pop
returns the none address 0. -/
theorem C3_fifo_counterexample :
    (popQueue (pushAll initState (firstAddresses 128))).2 = 0 ∧
    (0 : Nat) ≠ 1 := by
  constructor
  · rw [popQueue_of_empty _ collapse128_empty]
  · decide

/-- C3 amended: FIFO order holds for every push sequence of pairwise
distinct nonzero addresses none of which is already queued, provided the
existing queue content plus the new pushes stay within capacity minus
one; the pops then return the old content followed by the pushed
addresses in push order, and popQueue on an empty queue returns the none
address 0 leaving the state unchanged. -/
theorem C3_fifo_amended :
    (∀ (s : KnxState) (as : List Nat), WF s → as.Nodup →
      (∀ a ∈ as, a ≠ 0) → (∀ a ∈ as, a ∉ queueList s) →
      (queueList s).length + as.length ≤ KNX_READ_QUEUE_SIZE - 1 →
      popN (pushAll s as) ((queueList s).length + as.length) =
        queueList s ++ as) ∧
    (∀ s : KnxState, isQueueEmpty s = true → popQueue s = (s, 0)) := by
  constructor
  · intro s as hWF hnd hnz hfresh hroom
    obtain ⟨hq, hWF2⟩ := pushAll_spec as s hWF hnd hnz hfresh hroom
    have hlen : (queueList (pushAll s as)).length =
        (queueList s).length + as.length := by
      rw [hq, List.length_append]
    have hp := popN_spec ((queueList s).length + as.length)
      (pushAll s as) hWF2 hlen
    rw [hp, hq]
  · exact popQueue_of_empty

/-- Witness for C3 at a nonempty start state: pushing 5 then 7 after 3 is
drained in order 3, 5, 7; and popping the empty boot queue returns 0. -/
theorem C3_fifo_amended_witness :
    popN (pushAll (pushAll initState [3]) [5, 7]) 3 = [3, 5, 7] ∧
    popQueue initState = (initState, 0) := by
  have h := C3_fifo_amended
  exact ⟨h.1 (pushAll initState [3]) [5, 7] (by decide) (by decide)
    (by decide) (by decide) (by decide), h.2 initState (by decide)⟩

/-- C4: state update clears the wait.  While waiting on X, an accepted
telegram for X whose command is write or answer and whose payload is the
1-bit boolean form sets state and lastStateUpdateMs for every slot whose
stateAddress is X, clears the wait registers, and leaves the read queue
untouched. -/
theorem C4_state_update_clears_wait (s : KnxState) (t : KnxTelegram)
    (now X : Nat) (hwait : s.waitAddress = X)
    (haddr : t.targetGroupAddress = X)
    (hcmd : t.command = KnxCommand.write ∨ t.command = KnxCommand.answer)
    (hlen : t.payloadLength = 2) :
    (∀ i, i < MAX_INPUT_COUNT → (s.knxConfig i).stateAddress = X →
      ((knxTelegram s t true now).knxConfig i).state = t.getBool ∧
      ((knxTelegram s t true now).knxConfig i).lastStateUpdateMs = now) ∧
    (knxTelegram s t true now).waitAddress = 0 ∧
    (knxTelegram s t true now).waitSince = 0 ∧
    (knxTelegram s t true now).readQueue = s.readQueue ∧
    (knxTelegram s t true now).headIdx = s.headIdx ∧
    (knxTelegram s t true now).tailIdx = s.tailIdx := by
  have heq := knxTelegram_accepted s t now hcmd hlen (by rw [hwait, haddr])
  rw [heq]
  refine ⟨?_, rfl, rfl, rfl, rfl, rfl⟩
  intro i hi hsa
  show (applyStateUpdate s.knxConfig t.targetGroupAddress t.getBool now i).state
      = t.getBool ∧
    (applyStateUpdate s.knxConfig t.targetGroupAddress t.getBool now
      i).lastStateUpdateMs = now
  unfold applyStateUpdate
  exact foldl_stateUpdate_applied t.targetGroupAddress t.getBool now
    (List.range MAX_INPUT_COUNT) s.knxConfig i (List.mem_range.2 hi)
    (by rw [hsa, haddr])

/-- Witness for C4: waiting on 9 with slot 0 listening on 9, a boolean
write telegram for 9 sets slot 0 true, stamps the time and goes idle. -/
theorem C4_state_update_clears_wait_witness :
    ((knxTelegram waitingState sampleTelegram true 77).knxConfig 0).state =
      true ∧
    ((knxTelegram waitingState sampleTelegram true
      77).knxConfig 0).lastStateUpdateMs = 77 ∧
    (knxTelegram waitingState sampleTelegram true 77).waitAddress = 0 := by
  have h := C4_state_update_clears_wait waitingState sampleTelegram 77 9
    (by decide) (by decide) (Or.inl rfl) (by decide)
  obtain ⟨hs, hl⟩ := h.1 0 (by decide) (by decide)
  exact ⟨hs, hl, h.2.1⟩

/-- C5: timeout requeues.  While waiting on a nonzero address X (with the
cursor well-formedness and the below-capacity occupancy that hold in
every reachable waiting state), the first tick whose elapsed wait exceeds
KNX_READ_TIMEOUT_MS clears the wait registers and leaves X on the queue;
any earlier tick changes nothing and issues no read. -/
theorem C5_timeout_requeues (s : KnxState) (now X : Nat) (hWF : WF s)
    (hwait : s.waitAddress = X) (hX : X ≠ 0)
    (hroom : (queueList s).length < KNX_READ_QUEUE_SIZE - 1) :
    (sub32 now s.waitSince > KNX_READ_TIMEOUT_MS →
      (loopKnxBody s now).1.waitAddress = 0 ∧
      (loopKnxBody s now).1.waitSince = 0 ∧
      isQueued (loopKnxBody s now).1 X = true) ∧
    (¬ sub32 now s.waitSince > KNX_READ_TIMEOUT_MS →
      loopKnxBody s now = (s, none)) := by
  have hw0 : ¬ (s.waitAddress = 0) := by
    rw [hwait]
    exact hX
  constructor
  · intro ht
    have heq1 : (loopKnxBody s now).1 = setWait (pushQueue s s.waitAddress) 0 0 := by
      unfold loopKnxBody
      rw [if_neg hw0, if_pos ht]
    rw [heq1]
    refine ⟨rfl, rfl, ?_⟩
    rw [isQueued_congr (setWait (pushQueue s s.waitAddress) 0 0)
      (pushQueue s s.waitAddress) rfl rfl rfl X, hwait]
    apply (isQueued_iff (pushQueue s X) (pushQueue_WF s X hWF) X).2
    by_cases hq : isQueued s X = true
    · rw [pushQueue_noop_queued s X hq]
      exact (isQueued_iff s hWF X).1 hq
    · have hmem : X ∉ queueList s := fun hm => hq ((isQueued_iff s hWF X).2 hm)
      rw [pushQueue_append s X hWF hX hmem hroom]
      exact List.mem_append.2 (Or.inr (List.mem_singleton.2 rfl))
  · intro ht
    unfold loopKnxBody
    rw [if_neg hw0, if_neg ht]

/-- Witness for C5: waiting on 9 since time 0, the tick at 6000 ms clears
the wait and queues 9; the tick at 4000 ms changes nothing. -/
theorem C5_timeout_requeues_witness :
    (loopKnxBody waitingState 6000).1.waitAddress = 0 ∧
    isQueued (loopKnxBody waitingState 6000).1 9 = true ∧
    loopKnxBody waitingState 4000 = (waitingState, none) := by
  have h1 := C5_timeout_requeues waitingState 6000 9 (by decide) (by decide)
    (by decide) (by decide)
  have h2 := C5_timeout_requeues waitingState 4000 9 (by decide) (by decide)
    (by decide) (by decide)
  obtain ⟨ha, _, hb⟩ := h1.1 (by decide)
  exact ⟨ha, hb, h2.2 (by decide)⟩

/-- C6: refresh suppression.  While a read is in flight, a tick can add at
most the awaited address itself to the queue (the timeout requeue), never
a staleness refresh; while idle with a nonempty queue, a tick drains
exactly the tail entry, issues that one read, and enqueues nothing; and a
read is only ever issued from the idle state, immediately arming the wait
on the returned address, so at most one request is in flight at a time. -/
theorem C6_refresh_suppression :
    (∀ (s : KnxState) (now a : Nat), WF s → s.waitAddress ≠ 0 →
      isQueued (loopKnxBody s now).1 a = true →
      a ∈ queueList s ∨ a = s.waitAddress) ∧
    (∀ (s : KnxState) (now x : Nat) (rest : List Nat), WF s →
      s.waitAddress = 0 → x ≠ 0 → queueList s = x :: rest →
      queueList (loopKnxBody s now).1 = rest ∧
      (loopKnxBody s now).2 = some x ∧
      (loopKnxBody s now).1.waitAddress = x) ∧
    (∀ (s : KnxState) (now a : Nat), (loopKnxBody s now).2 = some a →
      s.waitAddress = 0 ∧ (loopKnxBody s now).1.waitAddress = a) := by
  refine ⟨?_, ?_, ?_⟩
  · intro s now a hWF hw hq
    by_cases ht : sub32 now s.waitSince > KNX_READ_TIMEOUT_MS
    · have heq1 : (loopKnxBody s now).1 =
          setWait (pushQueue s s.waitAddress) 0 0 := by
        unfold loopKnxBody
        rw [if_neg hw, if_pos ht]
      rw [heq1, isQueued_congr (setWait (pushQueue s s.waitAddress) 0 0)
        (pushQueue s s.waitAddress) rfl rfl rfl a] at hq
      exact pushQueue_mem_sub s s.waitAddress a hWF
        ((isQueued_iff _ (pushQueue_WF s s.waitAddress hWF) a).1 hq)
    · have heq1 : (loopKnxBody s now).1 = s := by
        unfold loopKnxBody
        rw [if_neg hw, if_neg ht]
      rw [heq1] at hq
      exact Or.inl ((isQueued_iff s hWF a).1 hq)
  · intro s now x rest hWF hw hx hcons
    obtain ⟨hpop2, hql, hWFp, _, _, _, _, _⟩ := popQueue_cons s hWF x rest hcons
    have hne : (popQueue s).2 ≠ 0 := by
      rw [hpop2]
      exact hx
    have heq1 : (loopKnxBody s now).1 =
        setWait (popQueue s).1 (popQueue s).2 now := by
      unfold loopKnxBody
      rw [if_pos hw, if_pos hne]
    have heq2 : (loopKnxBody s now).2 = some (popQueue s).2 := by
      unfold loopKnxBody
      rw [if_pos hw, if_pos hne]
    refine ⟨?_, ?_, ?_⟩
    · rw [heq1, queueList_congr (setWait (popQueue s).1 (popQueue s).2 now)
        (popQueue s).1 rfl rfl rfl]
      exact hql
    · rw [heq2, hpop2]
    · rw [heq1]
      exact hpop2
  · intro s now a hsome
    by_cases hw : s.waitAddress = 0
    · by_cases hp : (popQueue s).2 ≠ 0
      · have heq1 : (loopKnxBody s now).1 =
            setWait (popQueue s).1 (popQueue s).2 now := by
          unfold loopKnxBody
          rw [if_pos hw, if_pos hp]
        have heq2 : (loopKnxBody s now).2 = some (popQueue s).2 := by
          unfold loopKnxBody
          rw [if_pos hw, if_pos hp]
        rw [heq2] at hsome
        refine ⟨hw, ?_⟩
        rw [heq1]
        exact Option.some.inj hsome
      · have heq2 : (loopKnxBody s now).2 = none := by
          unfold loopKnxBody
          rw [if_pos hw, if_neg hp]
        rw [heq2] at hsome
        simp at hsome
    · by_cases ht : sub32 now s.waitSince > KNX_READ_TIMEOUT_MS
      · have heq2 : (loopKnxBody s now).2 = none := by
          unfold loopKnxBody
          rw [if_neg hw, if_pos ht]
        rw [heq2] at hsome
        simp at hsome
      · have heq2 : (loopKnxBody s now).2 = none := by
          unfold loopKnxBody
          rw [if_neg hw, if_neg ht]
        rw [heq2] at hsome
        simp at hsome

/-- Witness for C6 at concrete states: a timed-out wait on 9 with 5 queued
only exposes 5 and 9; an idle tick on the one-element queue 5 drains it,
issues the read for 5 and arms the wait on 5. -/
theorem C6_refresh_suppression_witness :
    (5 ∈ queueList (pushAll waitingState [5]) ∨
      5 = (pushAll waitingState [5]).waitAddress) ∧
    (queueList (loopKnxBody (pushAll initState [5]) 0).1 = [] ∧
      (loopKnxBody (pushAll initState [5]) 0).2 = some 5 ∧
      (loopKnxBody (pushAll initState [5]) 0).1.waitAddress = 5) ∧
    ((pushAll initState [5]).waitAddress = 0 ∧
      (loopKnxBody (pushAll initState [5]) 0).1.waitAddress = 5) := by
  have h := C6_refresh_suppression
  exact ⟨h.1 (pushAll waitingState [5]) 6000 5 (by decide) (by decide)
      (by decide),
    h.2.1 (pushAll initState [5]) 0 5 [] (by decide) (by decide) (by decide)
      (by decide),
    h.2.2 (pushAll initState [5]) 0 5 (by decide)⟩

/-- C7: translation table literal cases.  With a configured command
address: switch LOW emits writeBool true, switch HIGH emits writeBool
false, button HOLD emits nothing, a single press (count 1) emits
writeBool of the negated cached state, rotary LOW emits a relative dim
step up at rate 5; with command address none every event of every type
emits nothing. -/
theorem C7_translation_table (s : KnxState) (index : Nat) :
    ((s.knxConfig (index - 1)).commandAddress ≠ 0 →
      publishKnxEvent s index SWITCH LOW_EVENT =
        some (KnxOutgoing.writeBool
          (s.knxConfig (index - 1)).commandAddress true)) ∧
    ((s.knxConfig (index - 1)).commandAddress ≠ 0 →
      publishKnxEvent s index SWITCH HIGH_EVENT =
        some (KnxOutgoing.writeBool
          (s.knxConfig (index - 1)).commandAddress false)) ∧
    ((s.knxConfig (index - 1)).commandAddress ≠ 0 →
      publishKnxEvent s index BUTTON HOLD_EVENT = none) ∧
    ((s.knxConfig (index - 1)).commandAddress ≠ 0 →
      publishKnxEvent s index BUTTON 1 =
        some (KnxOutgoing.writeBool (s.knxConfig (index - 1)).commandAddress
          (!(s.knxConfig (index - 1)).state))) ∧
    ((s.knxConfig (index - 1)).commandAddress ≠ 0 →
      publishKnxEvent s index ROTARY LOW_EVENT =
        some (KnxOutgoing.write4BitDim
          (s.knxConfig (index - 1)).commandAddress true 5)) ∧
    ((s.knxConfig (index - 1)).commandAddress = 0 →
      ∀ type state, publishKnxEvent s index type state = none) := by
  refine ⟨?_, ?_, ?_, ?_, ?_, ?_⟩
  · intro h
    simp [publishKnxEvent, h, SWITCH, BUTTON, ROTARY, CONTACT, SECURITY,
      PRESS, TOGGLE, LOW_EVENT]
  · intro h
    simp [publishKnxEvent, h, SWITCH, BUTTON, ROTARY, CONTACT, SECURITY,
      PRESS, TOGGLE, LOW_EVENT, HIGH_EVENT]
  · intro h
    simp [publishKnxEvent, h, BUTTON, HOLD_EVENT]
  · intro h
    simp [publishKnxEvent, h, BUTTON]
  · intro h
    simp [publishKnxEvent, h, ROTARY, BUTTON, LOW_EVENT]
  · intro h type state
    simp [publishKnxEvent, h]

/-- Witness for C7 on concrete states: command address 7 for the switch,
button and rotary cases, command address 0 for the suppressed case. -/
theorem C7_translation_table_witness :
    publishKnxEvent waitingState 1 SWITCH LOW_EVENT =
      some (KnxOutgoing.writeBool 7 true) ∧
    publishKnxEvent waitingState 1 BUTTON HOLD_EVENT = none ∧
    publishKnxEvent waitingState 1 BUTTON 1 =
      some (KnxOutgoing.writeBool 7 true) ∧
    publishKnxEvent waitingState 1 ROTARY LOW_EVENT =
      some (KnxOutgoing.write4BitDim 7 true 5) ∧
    publishKnxEvent initState 1 SWITCH LOW_EVENT = none := by
  have h := C7_translation_table waitingState 1
  have h0 := C7_translation_table initState 1
  exact ⟨h.1 (by decide), h.2.2.1 (by decide), h.2.2.2.1 (by decide),
    h.2.2.2.2.1 (by decide), h0.2.2.2.2.2 (by decide) SWITCH LOW_EVENT⟩

/-- C8 counterexample: at boot every slot's stateAddress is the none value
0, yet the interest filter accepts a group telegram whose target address
is 0, matching those none slots, contrary to the claim that none slots
are never matched by the filter. -/
theorem C8_none_address_counterexample :
    knxTelegramCheck initState zeroTelegram = true ∧
    zeroTelegram.targetGroupAddress = 0 ∧
    (∀ i, (initState.knxConfig i).stateAddress = 0) := by
  refine ⟨by decide, rfl, ?_⟩
  intro i
  rfl

/-- C8 amended: slots with stateAddress none are never enqueued (the none
address 0 is never on the queue in any state reachable by any operation
sequence, covering staleness refreshes as well), and for every telegram
whose target group address is nonzero an accepting filter answer is
always justified by a slot with a matching, hence nonzero, stateAddress:
none slots never cause the acceptance of such a telegram. -/
theorem C8_none_address_amended :
    (∀ ops : List SysOp, (0 : Nat) ∉ queueList (runOps ops)) ∧
    (∀ (s : KnxState) (t : KnxTelegram), t.targetGroupAddress ≠ 0 →
      knxTelegramCheck s t = true →
      ∃ i, i < MAX_INPUT_COUNT ∧
        (s.knxConfig i).stateAddress = t.targetGroupAddress ∧
        (s.knxConfig i).stateAddress ≠ 0) := by
  constructor
  · intro ops
    exact (runOps_QInv ops).2.2
  · intro s t ht hc
    unfold knxTelegramCheck at hc
    rcases Bool.eq_false_or_eq_true t.isTargetGroup with hg | hg
    · rw [if_neg (by simp [hg])] at hc
      rw [List.any_eq_true] at hc
      obtain ⟨i, hi, hbeq⟩ := hc
      rw [beq_iff_eq] at hbeq
      exact ⟨i, List.mem_range.1 hi, hbeq, by rw [hbeq]; exact ht⟩
    · rw [hg] at hc
      simp at hc

/-- Witness for C8 amended: no zero address after a concrete push, and the
acceptance of the telegram for address 9 is justified by slot 0. -/
theorem C8_none_address_amended_witness :
    (0 : Nat) ∉ queueList (runOps [SysOp.push 5]) ∧
    (∃ i, i < MAX_INPUT_COUNT ∧
      (waitingState.knxConfig i).stateAddress =
        sampleTelegram.targetGroupAddress ∧
      (waitingState.knxConfig i).stateAddress ≠ 0) := by
  have h := C8_none_address_amended
  exact ⟨h.1 [SysOp.push 5],
    h.2 waitingState sampleTelegram (by decide) (by decide)⟩

/-- C9 counterexample: with command address 7, the tamper event emits
writeBool false while the alarm (LOW) event emits writeBool true, so
tamper does not carry the same value as alarm. -/
theorem C9_security_counterexample :
    publishKnxEvent waitingState 1 SECURITY TAMPER_EVENT =
      some (KnxOutgoing.writeBool 7 false) ∧
    publishKnxEvent waitingState 1 SECURITY LOW_EVENT =
      some (KnxOutgoing.writeBool 7 true) ∧
    publishKnxEvent waitingState 1 SECURITY TAMPER_EVENT ≠
      publishKnxEvent waitingState 1 SECURITY LOW_EVENT := by
  refine ⟨?_, ?_, ?_⟩ <;> decide

/-- C9 amended: for a security input with a configured command address the
outgoing mapping distinguishes only alarm (LOW, mapped to true) from
everything else; tamper, short and fault each emit writeBool false,
identical to what the normal (HIGH) event emits. -/
theorem C9_security_amended (s : KnxState) (index : Nat)
    (h : (s.knxConfig (index - 1)).commandAddress ≠ 0) :
    publishKnxEvent s index SECURITY TAMPER_EVENT =
      some (KnxOutgoing.writeBool
        (s.knxConfig (index - 1)).commandAddress false) ∧
    publishKnxEvent s index SECURITY SHORT_EVENT =
      some (KnxOutgoing.writeBool
        (s.knxConfig (index - 1)).commandAddress false) ∧
    publishKnxEvent s index SECURITY FAULT_EVENT =
      some (KnxOutgoing.writeBool
        (s.knxConfig (index - 1)).commandAddress false) ∧
    publishKnxEvent s index SECURITY TAMPER_EVENT =
      publishKnxEvent s index SECURITY HIGH_EVENT ∧
    publishKnxEvent s index SECURITY SHORT_EVENT =
      publishKnxEvent s index SECURITY HIGH_EVENT ∧
    publishKnxEvent s index SECURITY FAULT_EVENT =
      publishKnxEvent s index SECURITY HIGH_EVENT := by
  refine ⟨?_, ?_, ?_, ?_, ?_, ?_⟩ <;>
    simp [publishKnxEvent, h, SECURITY, BUTTON, ROTARY, CONTACT, SWITCH,
      TAMPER_EVENT, SHORT_EVENT, FAULT_EVENT, HIGH_EVENT, LOW_EVENT]

/-- Witness for C9 amended at the concrete state with command address 7. -/
theorem C9_security_amended_witness :
    publishKnxEvent waitingState 1 SECURITY SHORT_EVENT =
      some (KnxOutgoing.writeBool 7 false) ∧
    publishKnxEvent waitingState 1 SECURITY FAULT_EVENT =
      publishKnxEvent waitingState 1 SECURITY HIGH_EVENT := by
  have h := C9_security_amended waitingState 1 (by decide)
  exact ⟨h.2.1, h.2.2.2.2.2⟩

/-- C10 counterexample: a slot still holding the initial lastStateUpdateMs
value 0 is not classified stale at a tick one millisecond after boot: it
is treated as last updated at time 0, not as already stale. -/
theorem C10_initial_stale_counterexample :
    (initState.knxConfig 0).lastStateUpdateMs = 0 ∧
    staleCheck 1 (initState.knxConfig 0).lastStateUpdateMs = false := by
  exact ⟨rfl, by decide⟩

/-- C10 amended: the staleness test computes elapsed time with unsigned
32-bit subtraction, so for every true elapsed time below the counter
period it classifies correctly, timestamps straddling the overflow
boundary included: a slot is stale iff the elapsed time exceeds
KNX_STATE_EXPIRY_MS.  A never-updated slot carries timestamp 0 and is
classified stale only once now itself exceeds the threshold, not
immediately. -/
theorem C10_wraparound_amended :
    (∀ last elapsed : Nat, last < U32 → elapsed < U32 →
      (staleCheck ((last + elapsed) % U32) last = true ↔
        elapsed > KNX_STATE_EXPIRY_MS)) ∧
    (∀ now : Nat, now < U32 →
      (staleCheck now 0 = true ↔ now > KNX_STATE_EXPIRY_MS)) := by
  constructor
  · intro last elapsed hl he
    have hsub : sub32 ((last + elapsed) % U32) last = elapsed := by
      unfold sub32
      rw [show U32 = 4294967296 from rfl] at hl he ⊢
      omega
    unfold staleCheck
    rw [hsub]
    simp [decide_eq_true_eq]
  · intro now hn
    have hsub : sub32 now 0 = now := by
      unfold sub32
      rw [show U32 = 4294967296 from rfl] at hn ⊢
      omega
    unfold staleCheck
    rw [hsub]
    simp [decide_eq_true_eq]

/-- Witness for C10 at the overflow boundary: last update just before the
counter wraps, now just after; elapsed 4 ms is correctly classified as
not stale, and a fresh boot tick at 2 ms is not stale either. -/
theorem C10_wraparound_amended_witness :
    (staleCheck ((4294967294 + 4) % U32) 4294967294 = true ↔
      (4 : Nat) > KNX_STATE_EXPIRY_MS) ∧
    (staleCheck 2 0 = true ↔ (2 : Nat) > KNX_STATE_EXPIRY_MS) := by
  have h := C10_wraparound_amended
  exact ⟨h.1 4294967294 4 (by decide) (by decide), h.2 2 (by decide)⟩
